import Mathlib

/-!
Shallow embedding of the Pulumi cloud API client
(`pkg/backend/cloud/api.go`): endpoint resolution (`getCloudAPI`),
request construction and dispatch (`pulumiAPICall`), and the REST
wrapper with its response decoding (`pulumiRESTCall`,
`pulumiRESTCallWithAccessToken`).

Strings are modelled as `List Char`.  The pieces of the Go standard
library the source leans on (`strings.TrimSuffix`/`TrimPrefix`/
`TrimSpace`/`HasPrefix`, `net/url.Parse`/`URL.String`,
`encoding/json.Unmarshal` into the `apitype.ErrorResponse` shape) are
modelled below, restricted to the fragments the source exercises; each
model notes its simplifications in its doc comment.  External effects
(the HTTP transport and the on-disk credential store) are passed in as
function parameters, so every definition stays executable.
-/

/-- Go `strings.TrimSuffix`: drop `suffix` from the end of `l` if (and
only if) it is a suffix; only one copy is removed. -/
def trimSuffix (l suffix : List Char) : List Char :=
  if suffix <:+ l then l.take (l.length - suffix.length) else l

/-- Go `strings.TrimPrefix`: drop `pre` from the front of `l` if (and
only if) it is a prefix; only one copy is removed. -/
def trimPrefix (l pre : List Char) : List Char :=
  if pre <+: l then l.drop pre.length else l

/-- Go `unicode.IsSpace`, restricted to the Latin-1 white space
characters Go recognises there (the further Unicode space code points
above U+00FF are not modelled; no claim involves them). -/
def isSpaceChar (c : Char) : Bool :=
  c == ' ' || c == '\t' || c == '\n' || c == '\x0b' || c == '\x0c' || c == '\r' ||
  c == '\x85' || c == '\xa0'

/-- Go `strings.TrimSpace`: drop white space from both ends. -/
def trimSpace (l : List Char) : List Char :=
  ((l.dropWhile isSpaceChar).reverse.dropWhile isSpaceChar).reverse

/-- Go `net/url`'s internal `split(s, c, cutc)`: split about the first
occurrence of `sep`; when `cutc` the separator is dropped from the
second component.  When `sep` does not occur the second component is
empty. -/
def splitFirst (sep : Char) (l : List Char) (cutc : Bool) : List Char × List Char :=
  (l.takeWhile (fun c => c != sep),
   if cutc then (l.dropWhile (fun c => c != sep)).tail
   else l.dropWhile (fun c => c != sep))

/-- First character class of Go `net/url.getscheme`: ASCII letters. -/
def isSchemeLetter (c : Char) : Bool :=
  ('a' ≤ c && c ≤ 'z') || ('A' ≤ c && c ≤ 'Z')

/-- Second character class of Go `net/url.getscheme`: digits and
`+ - .`, legal in a scheme except at its first position. -/
def isSchemeExtra (c : Char) : Bool :=
  ('0' ≤ c && c ≤ '9') || c == '+' || c == '-' || c == '.'

/-- Any character legal somewhere in a scheme. -/
def isSchemeChar (c : Char) : Bool := isSchemeLetter c || isSchemeExtra c

/-- Outcome of Go `net/url.getscheme`: a hard error (`:` before any
scheme character), no scheme present (the input is all path), or a
scheme split off from the rest. -/
inductive SchemeResult where
  | err : SchemeResult
  | noScheme : SchemeResult
  | found (scheme rest : List Char) : SchemeResult
deriving DecidableEq

/-- The scan of Go `net/url.getscheme`; the `Bool` says whether we are
at the first character.  `noScheme` bubbles up to mean "treat the whole
input as the rest". -/
def getSchemeAux : Bool → List Char → SchemeResult
  | _, [] => .noScheme
  | first, c :: cs =>
    if isSchemeLetter c then
      match getSchemeAux false cs with
      | .found sch rest => .found (c :: sch) rest
      | r => r
    else if isSchemeExtra c then
      if first then .noScheme
      else
        match getSchemeAux false cs with
        | .found sch rest => .found (c :: sch) rest
        | r => r
    else if c == ':' then
      if first then .err else .found [] cs
    else .noScheme

/-- Go `net/url.getscheme`: `none` is the "missing protocol scheme"
error; otherwise the scheme (possibly empty) and the remainder. -/
def getScheme (l : List Char) : Option (List Char × List Char) :=
  match getSchemeAux true l with
  | .err => none
  | .noScheme => some ([], l)
  | .found sch rest => some (sch, rest)

/-- The fields of Go `net/url.URL` the source touches.  `User` (the
userinfo is left inside `host` here), percent-escaping, `ForceQuery`
and the `"*"` special case are not modelled; scheme case-normalisation
is also omitted (every URL the claims mention has a lower-case
scheme). -/
structure GoURL where
  scheme : List Char
  opaquePart : List Char
  host : List Char
  path : List Char
  rawQuery : List Char
  fragment : List Char
deriving DecidableEq

/-- Go `net/url.Parse` (with `viaRequest = false`, as the source calls
it): cut the fragment at the first `#`, split off the scheme, cut the
query at the first `?`, then either record an opaque rootless part, an
authority plus path, or a bare path.  Failure (`none`) is the
"missing protocol scheme" error.  Host/port validation, userinfo and
escaping are not modelled (see `GoURL`). -/
def urlParse (rawurl : List Char) : Option GoURL :=
  let u := (splitFirst '#' rawurl true).1
  let frag := (splitFirst '#' rawurl true).2
  match getScheme u with
  | none => none
  | some (scheme, rest0) =>
    let rest1 := (splitFirst '?' rest0 true).1
    let rawQuery := (splitFirst '?' rest0 true).2
    if ¬ ("/".data <+: rest1) ∧ scheme ≠ [] then
      some { scheme := scheme, opaquePart := rest1, host := [], path := [],
             rawQuery := rawQuery, fragment := frag }
    else if (scheme ≠ [] ∨ ¬ ("///".data <+: rest1)) ∧ ("//".data <+: rest1) then
      let authority := (splitFirst '/' (rest1.drop 2) false).1
      let rest2 := (splitFirst '/' (rest1.drop 2) false).2
      some { scheme := scheme, opaquePart := [], host := authority, path := rest2,
             rawQuery := rawQuery, fragment := frag }
    else
      some { scheme := scheme, opaquePart := [], host := [], path := rest1,
             rawQuery := rawQuery, fragment := frag }

/-- Go `net/url.URL.String` for the modelled fields (Go 1.9 layout, as
vendored by the source's era): `scheme:`, then the opaque part, or
`//host` followed by the path (with a separating `/` inserted when a
non-empty path of a host-carrying URL does not start with one), then
`?query` and `#fragment`. -/
def urlString (u : GoURL) : List Char :=
  (if u.scheme = [] then [] else u.scheme ++ [':']) ++
  (if u.opaquePart ≠ [] then u.opaquePart
   else
     (if u.scheme ≠ [] ∨ u.host ≠ [] then '/' :: '/' :: u.host else []) ++
     (if u.path ≠ [] ∧ u.path.head? ≠ some '/' ∧ u.host ≠ [] then ['/'] else []) ++
     u.path) ++
  (if u.rawQuery = [] then [] else '?' :: u.rawQuery) ++
  (if u.fragment = [] then [] else '#' :: u.fragment)

/-- The record-level part of `getCloudAPI` (api.go:46-66): reject an
empty URL, a URL that fails to parse, and a URL carrying a query or a
fragment; then prepend `api.` to the host unless it already starts
with that literal prefix. -/
def getCloudAPIURL (cloudURL : List Char) : Option GoURL :=
  if cloudURL = [] then none
  else
    match urlParse cloudURL with
    | none => none
    | some u =>
      if u.rawQuery ≠ [] ∨ u.fragment ≠ [] then none
      else if "api.".data <+: u.host then some u
      else some { u with host := "api.".data ++ u.host }

/-- `getCloudAPI` (api.go:46-66): the validated record serialised with
`URL.String` and stripped of one trailing `/`. -/
def getCloudAPI (cloudURL : List Char) : Option (List Char) :=
  (getCloudAPIURL cloudURL).map (fun u => trimSuffix (urlString u) ['/'])

example : getCloudAPI "https://example.com".data = some "https://api.example.com".data := by decide

example : getCloudAPI "https://example.com/".data = some "https://api.example.com".data := by decide

example : getCloudAPI "https://example.com//".data = some "https://api.example.com/".data := by decide

example : getCloudAPI "".data = none := by decide

example : getCloudAPI "https://example.com?x=1".data = none := by decide

example : getCloudAPI ":bad".data = none := by decide

example : getCloudAPI "https://api.example.com".data = some "https://api.example.com".data := by decide

/-- `apitype.ErrorResponse`, the structured error shape of the wire
format: a numeric code and a human-readable message.  Modelled from the
spec: the `apitype` package is not among the given sources; the spec
fixes the shape as a JSON object `(code: integer, message: string)`. -/
structure ErrorResponse where
  code : Int
  message : List Char
deriving DecidableEq

/-- JSON white space. -/
def isJsonWs (c : Char) : Bool :=
  c == ' ' || c == '\t' || c == '\n' || c == '\r'

/-- Skip JSON white space. -/
def skipWs (l : List Char) : List Char := l.dropWhile isJsonWs

/-- Parse the body of a JSON string literal, the opening quote already
consumed; escape sequences are not modelled (a backslash makes the
parse fail, where Go would process the escape — no claim involves an
escaped string). -/
def parseStringBody : List Char → Option (List Char × List Char)
  | [] => none
  | c :: cs =>
    if c == '\x22' then some ([], cs)
    else if c == '\x5c' then none
    else
      match parseStringBody cs with
      | some (s, rest) => some (c :: s, rest)
      | none => none

/-- Decimal digit. -/
def isDigitChar (c : Char) : Bool := '0' ≤ c && c ≤ '9'

/-- Value of a list of decimal digits. -/
def digitsToNat (l : List Char) : Nat :=
  l.foldl (fun acc c => acc * 10 + (c.toNat - '0'.toNat)) 0

/-- Parse one or more decimal digits. -/
def parseDigits (l : List Char) : Option (Nat × List Char) :=
  let ds := l.takeWhile isDigitChar
  if ds = [] then none else some (digitsToNat ds, l.dropWhile isDigitChar)

/-- Parse a JSON integer literal (fractions and exponents are not
modelled; Go rejects them for an `int`-typed field anyway). -/
def parseIntLit : List Char → Option (Int × List Char)
  | '-' :: cs => (parseDigits cs).map (fun p => (-(p.1 : Int), p.2))
  | l => (parseDigits l).map (fun p => ((p.1 : Int), p.2))

/-- A scalar JSON value: all the member values the model accepts
(nested objects and arrays as member values make the parse fail, where
Go would skip them for an unknown key — no claim involves them). -/
inductive JsonScalar where
  | jstr (s : List Char) : JsonScalar
  | jint (n : Int) : JsonScalar
  | jbool (b : Bool) : JsonScalar
  | jnull : JsonScalar
deriving DecidableEq

/-- Parse one scalar JSON value. -/
def parseScalar (l : List Char) : Option (JsonScalar × List Char) :=
  match l with
  | '\x22' :: cs => (parseStringBody cs).map (fun p => (.jstr p.1, p.2))
  | _ =>
    if "true".data <+: l then some (.jbool true, l.drop 4)
    else if "false".data <+: l then some (.jbool false, l.drop 5)
    else if "null".data <+: l then some (.jnull, l.drop 4)
    else (parseIntLit l).map (fun p => (.jint p.1, p.2))

/-- Fold one object member into the accumulated `ErrorResponse`,
mirroring Go `encoding/json` field semantics for this target type:
`code` takes an integer, `message` takes a string, a `null` value
leaves the field untouched, a mistyped value is an error, and unknown
keys are ignored.  (Go's case-insensitive key match is not modelled;
the wire format uses the exact lower-case keys.) -/
def applyMember (acc : ErrorResponse) (key : List Char) (v : JsonScalar) :
    Option ErrorResponse :=
  if key = "code".data then
    match v with
    | .jint n => some { acc with code := n }
    | .jnull => some acc
    | _ => none
  else if key = "message".data then
    match v with
    | .jstr s => some { acc with message := s }
    | .jnull => some acc
    | _ => none
  else some acc

/-- Parse the members of a JSON object (the opening brace already
consumed), folding them into `acc`; `fuel` bounds the recursion by the
input length. -/
def parseMembers : Nat → ErrorResponse → List Char → Option ErrorResponse
  | 0, _, _ => none
  | fuel + 1, acc, l =>
    match skipWs l with
    | '\x22' :: cs =>
      match parseStringBody cs with
      | none => none
      | some (key, rest) =>
        match skipWs rest with
        | ':' :: rest2 =>
          match parseScalar (skipWs rest2) with
          | none => none
          | some (v, rest3) =>
            match applyMember acc key v with
            | none => none
            | some acc2 =>
              match skipWs rest3 with
              | ',' :: rest4 => parseMembers fuel acc2 rest4
              | '\x7d' :: rest4 => if skipWs rest4 = [] then some acc2 else none
              | _ => none
        | _ => none
    | _ => none

/-- Go `json.Unmarshal(body, &errResp)` for an `apitype.ErrorResponse`
target (api.go:160-161): a JSON object sets the fields it carries and
leaves the rest at their zero values, a bare `null` succeeds and sets
nothing, anything else is an error.  Modelled from the spec for the
target shape (see `ErrorResponse`); the JSON subset handled is noted on
the helper parsers. -/
def unmarshalErrorResponse (body : List Char) : Option ErrorResponse :=
  match skipWs body with
  | '\x7b' :: rest =>
    match skipWs rest with
    | '\x7d' :: rest2 => if skipWs rest2 = [] then some ⟨0, []⟩ else none
    | _ => parseMembers (rest.length + 1) ⟨0, []⟩ rest
  | l =>
    if "null".data <+: l ∧ skipWs (l.drop 4) = []
    then some ⟨0, []⟩ else none

example : unmarshalErrorResponse "\x7b\x7d".data = some ⟨0, []⟩ := by decide

example :
    unmarshalErrorResponse "\x7b\x22code\x22:500,\x22message\x22:\x22boom\x22\x7d".data
      = some ⟨500, "boom".data⟩ := by decide

example : unmarshalErrorResponse "  server exploded  ".data = none := by decide

example : unmarshalErrorResponse "".data = none := by decide

example : trimSpace "  server exploded  ".data = "server exploded".data := by decide

/-- The parts of an outgoing `http.Request` the source sets
(api.go:88-97). -/
structure HTTPRequest where
  method : List Char
  url : List Char
  headers : List (List Char × List Char)
  body : List Char
deriving DecidableEq

/-- The parts of an `http.Response` the source reads: the status code
and the fully-read body (api.go:144, 154). -/
structure HTTPResponse where
  statusCode : Nat
  body : List Char
deriving DecidableEq

/-- The error taxonomy of the core, one constructor per class the spec
names.  The Go source reports each as a wrapped `error` string; the
payloads here keep what each wrap preserves. -/
inductive RESTError where
  | invalidEndpoint : RESTError
  | transportError (cause : List Char) : RESTError
  | credentialsUnavailable (cause : List Char) : RESTError
  | unauthenticated (msg : List Char) : RESTError
  | apiError (e : ErrorResponse) : RESTError
  | decodeError : RESTError
deriving DecidableEq

/-- The fixed guidance message for HTTP 401 (api.go:157). -/
def loginErrorMsg : List Char :=
  "this command requires logging in; try running \x27pulumi login\x27 first".data

/-- The request `pulumiAPICall` constructs (api.go:83-97): endpoint
with one trailing `/` stripped, path with one leading `/` stripped,
joined as `(endpoint)/api/(path)`; a `Content-Type: application/json`
header always, and an `Authorization: token (accessToken)` header
exactly when the token is non-empty. -/
def mkPulumiRequest (apiEndpoint method path body accessToken : List Char) :
    HTTPRequest :=
  let ep := trimSuffix apiEndpoint ['/']
  let p := trimPrefix path ['/']
  { method := method,
    url := ep ++ "/api/".data ++ p,
    headers :=
      ("Content-Type".data, "application/json".data) ::
      (if accessToken = [] then []
       else [("Authorization".data, "token ".data ++ accessToken)]),
    body := body }

/-- `pulumiAPICall` (api.go:77-112): resolve the endpoint, build the
request, execute it through the transport `doer`, and return the
request URL with the raw response.  `http.NewRequest` construction
failure is not modelled (the URL here is always well-formed);
`client.Do` failure is whatever `doer` reports. -/
def pulumiAPICall (doer : HTTPRequest → Except (List Char) HTTPResponse)
    (cloudAPI method path body accessToken : List Char) :
    Except RESTError (List Char × HTTPResponse) :=
  match getCloudAPI cloudAPI with
  | none => .error .invalidEndpoint
  | some apiEndpoint =>
    let req := mkPulumiRequest apiEndpoint method path body accessToken
    match doer req with
    | .error e => .error (.transportError e)
    | .ok resp => .ok (req.url, resp)

/-- `pulumiRESTCallWithAccessToken` (api.go:127-175).  The request
object is taken already marshalled (`reqBody`; the claims do not touch
request marshalling), the body is taken as already fully read (a read
failure folds into the transport), and the success target `respObj` is
an optional decoder for the caller's type, `none` standing for Go's
`nil` target.  Statuses in `[400, 599]` decode to errors, 401 first
and without looking at the body; otherwise a structured
`ErrorResponse` when the body unmarshals as one, else a synthesised
one carrying the status code and the trimmed body text.  Other
statuses decode the body into the target when one is supplied. -/
def pulumiRESTCallWithAccessToken {α : Type}
    (doer : HTTPRequest → Except (List Char) HTTPResponse)
    (cloudAPI method path : List Char) (reqBody : List Char)
    (respObj : Option (List Char → Option α)) (token : List Char) :
    Except RESTError (Option α) :=
  match pulumiAPICall doer cloudAPI method path reqBody token with
  | .error e => .error e
  | .ok (_url, resp) =>
    if 400 ≤ resp.statusCode ∧ resp.statusCode ≤ 599 then
      if resp.statusCode = 401 then .error (.unauthenticated loginErrorMsg)
      else
        match unmarshalErrorResponse resp.body with
        | some errResp => .error (.apiError errResp)
        | none => .error (.apiError ⟨(resp.statusCode : Int), trimSpace resp.body⟩)
    else
      match respObj with
      | none => .ok none
      | some dec =>
        match dec resp.body with
        | none => .error .decodeError
        | some v => .ok (some v)

/-- `pulumiRESTCall` (api.go:118-124): fetch the access token from the
credential store keyed by the cloud URL (`workspace.GetAccessToken`,
an external collaborator passed in as `store`), failing with the
credentials error before anything else happens; then delegate. -/
def pulumiRESTCall {α : Type}
    (store : List Char → Except (List Char) (List Char))
    (doer : HTTPRequest → Except (List Char) HTTPResponse)
    (cloudAPI method path : List Char) (reqBody : List Char)
    (respObj : Option (List Char → Option α)) :
    Except RESTError (Option α) :=
  match store cloudAPI with
  | .error e => .error (.credentialsUnavailable e)
  | .ok token =>
    pulumiRESTCallWithAccessToken doer cloudAPI method path reqBody respObj token

deriving instance DecidableEq for Except

example :
    pulumiRESTCallWithAccessToken (α := Unit)
      (fun _ => .ok ⟨401, "\x7b\x22code\x22:500,\x22message\x22:\x22boom\x22\x7d".data⟩)
      "https://example.com".data "GET".data "stack".data [] none "tok".data
      = .error (.unauthenticated loginErrorMsg) := by decide

example :
    pulumiRESTCallWithAccessToken (α := Unit)
      (fun _ => .ok ⟨500, "  server exploded  ".data⟩)
      "https://example.com".data "GET".data "stack".data [] none "tok".data
      = .error (.apiError ⟨500, "server exploded".data⟩) := by decide

example :
    pulumiRESTCallWithAccessToken (α := Unit)
      (fun _ => .ok ⟨500, "\x7b\x7d".data⟩)
      "https://example.com".data "GET".data "stack".data [] none "tok".data
      = .error (.apiError ⟨0, []⟩) := by decide

example :
    pulumiRESTCallWithAccessToken (α := Nat)
      (fun _ => .ok ⟨200, "7".data⟩)
      "https://example.com".data "GET".data "stack".data []
      (some (fun l => if l = "7".data then some 7 else none)) "tok".data
      = .ok (some 7) := by decide

/-! ## Helper lemmas for the response-decoding claims -/

/-- Reduction of `pulumiRESTCallWithAccessToken` against a transport
that answers with a fixed status and body, once the endpoint
resolves. -/
theorem restCallWithAccessToken_status {α : Type} (capi ep : List Char)
    (hep : getCloudAPI capi = some ep) (method path reqBody token : List Char)
    (respObj : Option (List Char → Option α)) (status : Nat) (body : List Char) :
    pulumiRESTCallWithAccessToken (fun _ => .ok ⟨status, body⟩)
        capi method path reqBody respObj token
      = if 400 ≤ status ∧ status ≤ 599 then
          if status = 401 then .error (.unauthenticated loginErrorMsg)
          else
            match unmarshalErrorResponse body with
            | some errResp => .error (.apiError errResp)
            | none => .error (.apiError ⟨(status : Int), trimSpace body⟩)
        else
          match respObj with
          | none => .ok none
          | some dec =>
            match dec body with
            | none => .error .decodeError
            | some v => .ok (some v) := by
  simp [pulumiRESTCallWithAccessToken, pulumiAPICall, hep]

/-! ## Decoder claims -/

/-- C1: for every response whose status code is in [400, 599] and is
not 401, the call fails with an ApiError: when the body unmarshals as
a structured ErrorResponse the error is exactly that payload, and when
unmarshalling fails the error carries the HTTP status code and the
whitespace-trimmed raw body text. -/
theorem c1_error_status_decodes_to_api_error {α : Type} (capi ep : List Char)
    (hep : getCloudAPI capi = some ep) (method path reqBody token : List Char)
    (respObj : Option (List Char → Option α)) (status : Nat) (body : List Char)
    (h400 : 400 ≤ status) (h599 : status ≤ 599) (h401 : status ≠ 401) :
    (∀ e, unmarshalErrorResponse body = some e →
      pulumiRESTCallWithAccessToken (fun _ => .ok ⟨status, body⟩)
          capi method path reqBody respObj token
        = .error (.apiError e)) ∧
    (unmarshalErrorResponse body = none →
      pulumiRESTCallWithAccessToken (fun _ => .ok ⟨status, body⟩)
          capi method path reqBody respObj token
        = .error (.apiError ⟨(status : Int), trimSpace body⟩)) := by
  rw [restCallWithAccessToken_status capi ep hep method path reqBody token respObj status body,
      if_pos ⟨h400, h599⟩, if_neg h401]
  constructor
  · intro e he
    rw [he]
  · intro he
    rw [he]

/-- C1 witness: status 500 with the non-JSON body
`"  server exploded  "` yields `ApiError` with code 500 and the
trimmed message `"server exploded"`. -/
theorem c1_error_status_decodes_to_api_error_witness :
    unmarshalErrorResponse "  server exploded  ".data = none ∧
    pulumiRESTCallWithAccessToken (α := Unit)
        (fun _ => .ok ⟨500, "  server exploded  ".data⟩)
        "https://example.com".data "GET".data "stack".data [] none "tok".data
      = .error (.apiError ⟨500, "server exploded".data⟩) :=
  ⟨by decide,
   (c1_error_status_decodes_to_api_error (α := Unit)
      "https://example.com".data "https://api.example.com".data (by decide)
      "GET".data "stack".data [] "tok".data none 500 "  server exploded  ".data
      (by decide) (by decide) (by decide)).2 (by decide)⟩

/-- C2: a response with status 401 always fails with the
Unauthenticated error carrying the fixed guidance message, whatever
the body holds. -/
theorem c2_unauthorized_short_circuits {α : Type} (capi ep : List Char)
    (hep : getCloudAPI capi = some ep) (method path reqBody token : List Char)
    (respObj : Option (List Char → Option α)) :
    ∀ body, pulumiRESTCallWithAccessToken (fun _ => .ok ⟨401, body⟩)
        capi method path reqBody respObj token
      = .error (.unauthenticated loginErrorMsg) := by
  intro body
  rw [restCallWithAccessToken_status capi ep hep method path reqBody token respObj 401 body,
      if_pos (by omega : 400 ≤ 401 ∧ 401 ≤ 599), if_pos rfl]

/-- C2 witness: even a body that is a valid JSON ErrorResponse (here
`(code: 500, message: "boom")`, which unmarshals to that payload) is
ignored at status 401. -/
theorem c2_unauthorized_short_circuits_witness :
    unmarshalErrorResponse
        "\x7b\x22code\x22:500,\x22message\x22:\x22boom\x22\x7d".data
      = some ⟨500, "boom".data⟩ ∧
    pulumiRESTCallWithAccessToken (α := Unit)
        (fun _ => .ok ⟨401, "\x7b\x22code\x22:500,\x22message\x22:\x22boom\x22\x7d".data⟩)
        "https://example.com".data "GET".data "stack".data [] none "tok".data
      = .error (.unauthenticated loginErrorMsg) :=
  ⟨by decide,
   c2_unauthorized_short_circuits (α := Unit)
      "https://example.com".data "https://api.example.com".data (by decide)
      "GET".data "stack".data [] "tok".data none
      "\x7b\x22code\x22:500,\x22message\x22:\x22boom\x22\x7d".data⟩

/-- C9: for a response whose status is outside [400, 599], a supplied
success target decodes the whole body and fails with DecodeError
exactly when that decoding fails, while an absent target makes the
call succeed with the body having no effect. -/
theorem c9_success_status_decoding {α : Type} (capi ep : List Char)
    (hep : getCloudAPI capi = some ep) (method path reqBody token : List Char)
    (status : Nat) (body : List Char)
    (hs : ¬ (400 ≤ status ∧ status ≤ 599)) :
    (∀ dec : List Char → Option α,
      (pulumiRESTCallWithAccessToken (fun _ => .ok ⟨status, body⟩)
          capi method path reqBody (some dec) token
        = .error .decodeError ↔ dec body = none) ∧
      (∀ v, dec body = some v →
        pulumiRESTCallWithAccessToken (fun _ => .ok ⟨status, body⟩)
            capi method path reqBody (some dec) token
          = .ok (some v))) ∧
    (pulumiRESTCallWithAccessToken (α := α) (fun _ => .ok ⟨status, body⟩)
        capi method path reqBody none token
      = .ok none) := by
  refine ⟨fun dec => ⟨?_, fun v hv => ?_⟩, ?_⟩
  · rw [restCallWithAccessToken_status capi ep hep method path reqBody token (some dec) status body,
        if_neg hs]
    cases hd : dec body <;> simp [hd]
  · rw [restCallWithAccessToken_status capi ep hep method path reqBody token (some dec) status body,
        if_neg hs]
    simp [hv]
  · rw [restCallWithAccessToken_status capi ep hep method path reqBody token none status body,
        if_neg hs]

/-- C9 witness: at status 200 a target decoding the body `"7"` to the
number 7 succeeds with that value, and with no target the call
succeeds ignoring a body of junk. -/
theorem c9_success_status_decoding_witness :
    pulumiRESTCallWithAccessToken (α := Nat)
        (fun _ => .ok ⟨200, "7".data⟩)
        "https://example.com".data "GET".data "stack".data []
        (some (fun l => if l = "7".data then some 7 else none)) "tok".data
      = .ok (some 7) ∧
    pulumiRESTCallWithAccessToken (α := Nat)
        (fun _ => .ok ⟨200, "junk".data⟩)
        "https://example.com".data "GET".data "stack".data [] none "tok".data
      = .ok none :=
  ⟨((c9_success_status_decoding (α := Nat)
      "https://example.com".data "https://api.example.com".data (by decide)
      "GET".data "stack".data [] "tok".data 200 "7".data (by omega)).1
      (fun l => if l = "7".data then some 7 else none)).2 7 (by decide),
   (c9_success_status_decoding (α := Nat)
      "https://example.com".data "https://api.example.com".data (by decide)
      "GET".data "stack".data [] "tok".data 200 "junk".data (by omega)).2⟩

/-- C10: at an error status other than 401, a body that is the empty
JSON object unmarshals successfully with no fields supplied, so the
call fails with an ApiError whose code is 0 and whose message is
empty: the HTTP status code is substituted only when unmarshalling
fails. -/
theorem c10_empty_object_keeps_zero_fields {α : Type} (capi ep : List Char)
    (hep : getCloudAPI capi = some ep) (method path reqBody token : List Char)
    (respObj : Option (List Char → Option α)) (status : Nat)
    (h400 : 400 ≤ status) (h599 : status ≤ 599) (h401 : status ≠ 401) :
    unmarshalErrorResponse "\x7b\x7d".data = some ⟨0, []⟩ ∧
    pulumiRESTCallWithAccessToken (fun _ => .ok ⟨status, "\x7b\x7d".data⟩)
        capi method path reqBody respObj token
      = .error (.apiError ⟨0, []⟩) := by
  refine ⟨by decide, ?_⟩
  rw [restCallWithAccessToken_status capi ep hep method path reqBody token respObj status
        "\x7b\x7d".data,
      if_pos ⟨h400, h599⟩, if_neg h401,
      (by decide : unmarshalErrorResponse "\x7b\x7d".data = some ⟨0, []⟩)]

/-- C10 witness: status 500 with body `"\x7b\x7d"`. -/
theorem c10_empty_object_keeps_zero_fields_witness :
    pulumiRESTCallWithAccessToken (α := Unit)
        (fun _ => .ok ⟨500, "\x7b\x7d".data⟩)
        "https://example.com".data "GET".data "stack".data [] none "tok".data
      = .error (.apiError ⟨0, []⟩) :=
  (c10_empty_object_keeps_zero_fields (α := Unit)
      "https://example.com".data "https://api.example.com".data (by decide)
      "GET".data "stack".data [] "tok".data none 500
      (by decide) (by decide) (by decide)).2

/-! ## Transport claims -/

/-- C7: the request built for a resolved endpoint targets
`(endpoint)/api/(path with one leading slash stripped)`, always
carries `Content-Type: application/json`, carries
`Authorization: token (accessToken)` exactly when the token is
non-empty, and a successful `pulumiAPICall` returns that request's
URL after passing that request to the transport. -/
theorem c7_request_construction (capi ep : List Char)
    (hep : getCloudAPI capi = some ep) (method path body token : List Char) :
    ((mkPulumiRequest ep method path body token).url
      = trimSuffix ep ['/'] ++ "/api/".data ++ trimPrefix path ['/']) ∧
    (("Content-Type".data, "application/json".data)
      ∈ (mkPulumiRequest ep method path body token).headers) ∧
    ((("Authorization".data, "token ".data ++ token)
      ∈ (mkPulumiRequest ep method path body token).headers) ↔ token ≠ []) ∧
    (∀ doer resp, doer (mkPulumiRequest ep method path body token) = .ok resp →
      pulumiAPICall doer capi method path body token
        = .ok ((mkPulumiRequest ep method path body token).url, resp)) := by
  refine ⟨rfl, List.mem_cons_self _ _, ?_, ?_⟩
  · rcases htok : token with _ | ⟨c, cs⟩
    · simp [mkPulumiRequest]
    · simp [mkPulumiRequest]
  · intro doer resp hdoer
    simp [pulumiAPICall, hep, hdoer]

/-- C7 witness: for `https://example.com` resolved to
`https://api.example.com`, a path `/stack/update` and the token
`abc`, the url and the two headers come out as claimed, and the call
succeeds through a transport accepting that request. -/
theorem c7_request_construction_witness :
    (mkPulumiRequest "https://api.example.com".data "POST".data
        "/stack/update".data "b".data "abc".data).url
      = "https://api.example.com/api/stack/update".data ∧
    ("Content-Type".data, "application/json".data)
      ∈ (mkPulumiRequest "https://api.example.com".data "POST".data
          "/stack/update".data "b".data "abc".data).headers ∧
    ("Authorization".data, "token abc".data)
      ∈ (mkPulumiRequest "https://api.example.com".data "POST".data
          "/stack/update".data "b".data "abc".data).headers ∧
    pulumiAPICall (fun _ => .ok ⟨200, []⟩) "https://example.com".data "POST".data
        "/stack/update".data "b".data "abc".data
      = .ok ("https://api.example.com/api/stack/update".data, ⟨200, []⟩) := by
  have h := c7_request_construction "https://example.com".data
    "https://api.example.com".data (by decide) "POST".data "/stack/update".data
    "b".data "abc".data
  refine ⟨by decide, h.2.1, ?_, ?_⟩
  · have := h.2.2.1.2 (by decide)
    simpa using this
  · have := h.2.2.2 (fun _ => .ok ⟨200, []⟩) ⟨200, []⟩ rfl
    simpa using this

/-- C8: when the credential store fails for the endpoint key, the
higher-level call fails with CredentialsUnavailable, independent of
the transport (no request is executed), and that error class is
distinct from transport failures. -/
theorem c8_credentials_lookup_failure {α : Type}
    (store : List Char → Except (List Char) (List Char))
    (capi cause : List Char) (hstore : store capi = .error cause)
    (method path reqBody : List Char)
    (respObj : Option (List Char → Option α)) :
    (∀ doer, pulumiRESTCall store doer capi method path reqBody respObj
      = .error (.credentialsUnavailable cause)) ∧
    (∀ doer₁ doer₂,
      pulumiRESTCall store doer₁ capi method path reqBody respObj
        = pulumiRESTCall store doer₂ capi method path reqBody respObj) ∧
    (∀ t, RESTError.credentialsUnavailable cause ≠ RESTError.transportError t) := by
  refine ⟨fun doer => ?_, fun doer₁ doer₂ => ?_, fun t h => ?_⟩
  · simp [pulumiRESTCall, hstore]
  · simp [pulumiRESTCall, hstore]
  · exact RESTError.noConfusion h

/-- C8 witness: a store refusing every key makes the call fail with
CredentialsUnavailable under two different transports alike. -/
theorem c8_credentials_lookup_failure_witness :
    pulumiRESTCall (α := Unit) (fun _ => .error "no stored credentials".data)
        (fun _ => .ok ⟨200, []⟩) "https://example.com".data "GET".data
        "stack".data [] none
      = .error (.credentialsUnavailable "no stored credentials".data) ∧
    pulumiRESTCall (α := Unit) (fun _ => .error "no stored credentials".data)
        (fun _ => .error "dns failure".data) "https://example.com".data "GET".data
        "stack".data [] none
      = .error (.credentialsUnavailable "no stored credentials".data) :=
  ⟨(c8_credentials_lookup_failure (α := Unit)
      (fun _ => .error "no stored credentials".data) "https://example.com".data
      "no stored credentials".data rfl "GET".data "stack".data [] none).1
      (fun _ => .ok ⟨200, []⟩),
   (c8_credentials_lookup_failure (α := Unit)
      (fun _ => .error "no stored credentials".data) "https://example.com".data
      "no stored credentials".data rfl "GET".data "stack".data [] none).1
      (fun _ => .error "dns failure".data)⟩

/-! ## Endpoint-resolution claims -/

/-- C3: `getCloudAPI` fails exactly on the empty string, on an input
the URL parser rejects, and on an input whose parsed URL carries a
non-empty query or fragment; every other input resolves
successfully. -/
theorem c3_invalid_endpoint_iff (raw : List Char) :
    getCloudAPI raw = none ↔
      raw = [] ∨ urlParse raw = none ∨
        ∃ u, urlParse raw = some u ∧ (u.rawQuery ≠ [] ∨ u.fragment ≠ []) := by
  unfold getCloudAPI
  rw [Option.map_eq_none']
  unfold getCloudAPIURL
  by_cases h0 : raw = []
  · simp [h0]
  · rcases hp : urlParse raw with _ | u
    · simp [h0, hp]
    · by_cases hqf : u.rawQuery ≠ [] ∨ u.fragment ≠ []
      · simp [h0, hp, hqf]
      · push_neg at hqf
        simp [h0, hp, hqf.1, hqf.2]
        split <;> simp

/-- C4: for a parsed, validated URL whose host does not already begin
with `api.`, the resolver rewrites the host by prepending `api.`, and
leaves an already-prefixed host unchanged; in particular
`https://example.com` resolves to `https://api.example.com`. -/
theorem c4_host_rewrite (raw : List Char) (rec : GoURL) (hne : raw ≠ [])
    (hp : urlParse raw = some rec) (hq : rec.rawQuery = []) (hf : rec.fragment = []) :
    (¬ ("api.".data <+: rec.host) →
      getCloudAPIURL raw = some { rec with host := "api.".data ++ rec.host }) ∧
    (("api.".data <+: rec.host) → getCloudAPIURL raw = some rec) ∧
    getCloudAPI "https://example.com".data = some "https://api.example.com".data := by
  refine ⟨fun hpre => ?_, fun hpre => ?_, by decide⟩
  · unfold getCloudAPIURL
    rw [if_neg hne, hp]
    simp [hq, hf, hpre]
  · unfold getCloudAPIURL
    rw [if_neg hne, hp]
    simp [hq, hf, hpre]

/-- C4 witness: `https://example.com` parses with host `example.com`,
which does not carry the `api.` prefix, and the resolver rewrites it
to `api.example.com`. -/
theorem c4_host_rewrite_witness :
    urlParse "https://example.com".data
      = some ⟨"https".data, [], "example.com".data, [], [], []⟩ ∧
    getCloudAPIURL "https://example.com".data
      = some ⟨"https".data, [], "api.example.com".data, [], [], []⟩ := by
  refine ⟨by decide, ?_⟩
  have h := (c4_host_rewrite "https://example.com".data
    ⟨"https".data, [], "example.com".data, [], [], []⟩ (by decide) (by decide)
    rfl rfl).1 (by decide)
  rw [h]
  decide

/-- C5 counterexample: the host of `https://api.example.com//` already
starts with `api.`, the input resolves to `https://api.example.com/`,
yet resolving that output again gives the different string
`https://api.example.com` — only one trailing slash is stripped per
resolution, so `resolve` is not idempotent as claimed. -/
theorem c5_counterexample :
    urlParse "https://api.example.com//".data
      = some ⟨"https".data, [], "api.example.com".data, "//".data, [], []⟩ ∧
    ("api.".data <+: "api.example.com".data) ∧
    getCloudAPI "https://api.example.com//".data
      = some "https://api.example.com/".data ∧
    getCloudAPI "https://api.example.com/".data
      = some "https://api.example.com".data ∧
    "https://api.example.com/".data ≠ "https://api.example.com".data := by
  refine ⟨by decide, ⟨"example.com".data, by decide⟩, by decide, by decide, by decide⟩

/-- C6 counterexample: `https://api.example.com//` resolves
successfully to `https://api.example.com/`, which ends with `/` —
`strings.TrimSuffix` removes only a single trailing slash. -/
theorem c6_counterexample :
    getCloudAPI "https://example.com//".data
      = some "https://api.example.com/".data ∧
    ("https://api.example.com/".data).getLast? = some '/' := by
  constructor
  · decide
  · decide

/-! ## Helper lemmas about `trimSuffix` on a single slash -/

/-- `trimSuffix l (slash)` drops the last character exactly when it is
a slash. -/
theorem trimSuffix_slash (l : List Char) :
    trimSuffix l ['/'] = if l.getLast? = some '/' then l.dropLast else l := by
  by_cases h : l.getLast? = some '/'
  · rcases List.getLast?_eq_some_iff.1 h with ⟨t, rfl⟩
    rw [if_pos h]
    unfold trimSuffix
    rw [if_pos (List.suffix_append t ['/'])]
    simp
  · rw [if_neg h]
    unfold trimSuffix
    rw [if_neg ?_]
    rintro ⟨t, rfl⟩
    exact h (List.getLast?_concat t)

/-- Trimming one slash from `a ++ b` trims it from `b` when `a` does
not end with a slash. -/
theorem trimSuffix_slash_append (a b : List Char) (ha : a.getLast? ≠ some '/') :
    trimSuffix (a ++ b) ['/'] = a ++ trimSuffix b ['/'] := by
  rcases hb : b.getLast? with _ | c
  · have hbnil : b = [] := by
      cases b with
      | nil => rfl
      | cons x xs => simp [List.getLast?_eq_some_iff] at hb
    subst hbnil
    rw [List.append_nil, trimSuffix_slash, if_neg ha]
    simp [trimSuffix]
  · have hbne : b ≠ [] := by
      rintro rfl
      cases hb
    rw [trimSuffix_slash, trimSuffix_slash]
    have hlast : (a ++ b).getLast? = b.getLast? := by
      rw [List.getLast?_append]
      rw [hb]
      rfl
    by_cases hc : b.getLast? = some '/'
    · rw [if_pos (by rw [hlast]; exact hc), if_pos hc]
      exact List.dropLast_append_of_ne_nil a hbne
    · rw [if_neg (by rw [hlast]; exact hc), if_neg hc]

/-- C6 (amended): a single trailing slash is stripped from the final
serialised form, so the result does not end with `/` whenever the
serialised rewritten URL does not end with `//`; in particular
`https://example.com/` resolves to `https://api.example.com`.  (The
original claim, refuted by `c6_counterexample`, asserted this for
every successful input; `strings.TrimSuffix` removes only one
slash.) -/
theorem c6_amended_trailing_slash (raw : List Char) (u : GoURL) (s : List Char)
    (hu : getCloudAPIURL raw = some u)
    (hss : ¬ ("//".data <:+ urlString u))
    (hs : getCloudAPI raw = some s) :
    s.getLast? ≠ some '/' ∧
    getCloudAPI "https://example.com/".data = some "https://api.example.com".data := by
  refine ⟨?_, by decide⟩
  have heq : s = trimSuffix (urlString u) ['/'] := by
    unfold getCloudAPI at hs
    rw [hu] at hs
    simpa using hs.symm
  rw [heq, trimSuffix_slash]
  by_cases h : (urlString u).getLast? = some '/'
  · rw [if_pos h]
    rcases List.getLast?_eq_some_iff.1 h with ⟨t, ht⟩
    rw [ht, List.dropLast_concat]
    intro hlast
    rcases List.getLast?_eq_some_iff.1 hlast with ⟨t2, ht2⟩
    apply hss
    rw [ht, ht2]
    exact ⟨t2, by simp⟩
  · rw [if_neg h]
    exact h

/-- C6 (amended) witness: the spec's own example `https://example.com/`
satisfies the side condition and its resolution ends in no slash. -/
theorem c6_amended_trailing_slash_witness :
    getCloudAPIURL "https://example.com/".data
      = some ⟨"https".data, [], "api.example.com".data, "/".data, [], []⟩ ∧
    ("https://api.example.com".data).getLast? ≠ some '/' :=
  ⟨by decide,
   (c6_amended_trailing_slash "https://example.com/".data
      ⟨"https".data, [], "api.example.com".data, "/".data, [], []⟩
      "https://api.example.com".data (by decide) (by decide) (by decide)).1⟩

/-! ## Helper lemmas for the idempotence claim: splitting -/

/-- `splitFirst` on a list avoiding the separator returns the whole
list and an empty remainder. -/
theorem splitFirst_of_not_mem (sep : Char) (l : List Char) (cutc : Bool)
    (h : ∀ c ∈ l, c ≠ sep) : splitFirst sep l cutc = (l, []) := by
  unfold splitFirst
  have ht : l.takeWhile (fun c => c != sep) = l :=
    List.takeWhile_eq_self_iff.2 (fun a ha => bne_iff_ne.2 (h a ha))
  have hd : l.dropWhile (fun c => c != sep) = [] :=
    List.dropWhile_eq_nil_iff.2 (fun a ha => bne_iff_ne.2 (h a ha))
  rw [ht, hd]
  cases cutc <;> rfl

/-- `splitFirst` about the first separator occurrence. -/
theorem splitFirst_append_sep (sep : Char) (a b : List Char) (cutc : Bool)
    (h : ∀ c ∈ a, c ≠ sep) :
    splitFirst sep (a ++ sep :: b) cutc = (a, if cutc then b else sep :: b) := by
  unfold splitFirst
  have hp : ∀ c ∈ a, ((fun c => c != sep) c) = true := fun c hc => bne_iff_ne.2 (h c hc)
  rw [List.takeWhile_append_of_pos hp, List.dropWhile_append_of_pos hp,
      List.takeWhile_cons_of_neg, List.dropWhile_cons_of_neg] <;> simp

/-! ## Helper lemmas for the idempotence claim: the scheme scanner -/

/-- Characters accepted by the scheme scanner are themselves none of
the URL delimiters. -/
theorem isSchemeChar_ne (c : Char) (h : isSchemeChar c = true) :
    c ≠ '#' ∧ c ≠ '?' ∧ c ≠ ':' ∧ c ≠ '/' := by
  refine ⟨?_, ?_, ?_, ?_⟩ <;> rintro rfl <;> exact absurd h (by decide)

/-- What a successful scheme scan tells us about the input. -/
theorem getSchemeAux_found (l : List Char) : ∀ (first : Bool) (sch rest : List Char),
    getSchemeAux first l = .found sch rest →
    l = sch ++ ':' :: rest ∧ (∀ c ∈ sch, isSchemeChar c) ∧
      (first = true → ∃ c cs, sch = c :: cs ∧ isSchemeLetter c) := by
  induction l with
  | nil => intro first sch rest h; simp [getSchemeAux] at h
  | cons c cs ih =>
    intro first sch rest h
    unfold getSchemeAux at h
    by_cases hl : isSchemeLetter c
    · rw [if_pos hl] at h
      cases hrec : getSchemeAux false cs with
      | err => rw [hrec] at h; cases h
      | noScheme => rw [hrec] at h; cases h
      | found sch' rest' =>
        rw [hrec] at h
        rw [SchemeResult.found.injEq] at h
        obtain ⟨rfl, rfl⟩ := h
        obtain ⟨he, hall, -⟩ := ih false sch' rest' hrec
        refine ⟨by rw [List.cons_append, he], ?_, fun _ => ⟨c, sch', rfl, hl⟩⟩
        intro d hd
        rcases List.mem_cons.1 hd with rfl | hd'
        · simp [isSchemeChar, hl]
        · exact hall d hd'
    · rw [if_neg hl] at h
      by_cases hx : isSchemeExtra c
      · rw [if_pos hx] at h
        cases first with
        | true => cases h
        | false =>
          rw [if_neg Bool.false_ne_true] at h
          cases hrec : getSchemeAux false cs with
          | err => rw [hrec] at h; cases h
          | noScheme => rw [hrec] at h; cases h
          | found sch' rest' =>
            rw [hrec] at h
            rw [SchemeResult.found.injEq] at h
            obtain ⟨rfl, rfl⟩ := h
            obtain ⟨he, hall, -⟩ := ih false sch' rest' hrec
            refine ⟨by rw [List.cons_append, he], ?_, fun hf => by cases hf⟩
            intro d hd
            rcases List.mem_cons.1 hd with rfl | hd'
            · simp [isSchemeChar, hx]
            · exact hall d hd'
      · rw [if_neg hx] at h
        by_cases hcolon : c == ':'
        · rw [if_pos hcolon] at h
          cases first with
          | true => cases h
          | false =>
            rw [if_neg Bool.false_ne_true] at h
            rw [SchemeResult.found.injEq] at h
            obtain ⟨rfl, rfl⟩ := h
            refine ⟨by rw [List.nil_append, beq_iff_eq.1 hcolon], ?_, fun hf => by cases hf⟩
            intro d hd
            cases hd
        · rw [if_neg hcolon] at h
          cases h

/-- Rescanning a valid scheme followed by `:` recovers it. -/
theorem getSchemeAux_append_false (sch rest : List Char)
    (h : ∀ c ∈ sch, isSchemeChar c) :
    getSchemeAux false (sch ++ ':' :: rest) = .found sch rest := by
  induction sch with
  | nil => rfl
  | cons c cs ih =>
    have hc : isSchemeChar c := h c (List.mem_cons_self c cs)
    have hcs : ∀ d ∈ cs, isSchemeChar d := fun d hd => h d (List.mem_cons_of_mem c hd)
    rw [List.cons_append]
    unfold getSchemeAux
    by_cases hl : isSchemeLetter c
    · rw [if_pos hl, ih hcs]
    · have hx : isSchemeExtra c := by
        rcases Bool.or_eq_true_iff.1 hc with h' | h'
        · exact absurd h' hl
        · exact h'
      rw [if_neg hl, if_pos hx, ih hcs]
      rfl

/-- `getScheme` on a letter-headed scheme followed by `:`. -/
theorem getScheme_scheme (c : Char) (cs rest : List Char)
    (hc : isSchemeLetter c) (hcs : ∀ d ∈ cs, isSchemeChar d) :
    getScheme ((c :: cs) ++ ':' :: rest) = some (c :: cs, rest) := by
  unfold getScheme
  rw [List.cons_append]
  unfold getSchemeAux
  rw [if_pos hc, getSchemeAux_append_false cs rest hcs]

/-- `getScheme` on a slash-headed input finds no scheme. -/
theorem getScheme_slash (l : List Char) : getScheme ('/' :: l) = some ([], '/' :: l) := rfl

/-- The characters of a well-formed scheme avoid every URL
delimiter. -/
theorem scheme_chars_ne (scheme : List Char)
    (hscheme : scheme = [] ∨
      ∃ c cs, scheme = c :: cs ∧ isSchemeLetter c ∧ ∀ d ∈ cs, isSchemeChar d) :
    ∀ c ∈ scheme, c ≠ '#' ∧ c ≠ '?' ∧ c ≠ ':' ∧ c ≠ '/' := by
  rcases hscheme with rfl | ⟨c, cs, rfl, hl, hcs⟩
  · intro c hc
    cases hc
  · intro d hd
    rcases List.mem_cons.1 hd with rfl | hd'
    · exact isSchemeChar_ne d (by simp [isSchemeChar, hl])
    · exact isSchemeChar_ne d (hcs d hd')

/-- What `getScheme` returning `some` tells us: the rest is drawn from
the input, and the scheme is empty or letter-headed and made of scheme
characters, with the input decomposing around the colon. -/
theorem getScheme_some_spec (A scheme rest0 : List Char)
    (hgs : getScheme A = some (scheme, rest0)) :
    (scheme = [] ∧ rest0 = A) ∨
      (A = scheme ++ ':' :: rest0 ∧
        ∃ c cs, scheme = c :: cs ∧ isSchemeLetter c ∧ ∀ d ∈ cs, isSchemeChar d) := by
  unfold getScheme at hgs
  cases haux : getSchemeAux true A with
  | err => rw [haux] at hgs; cases hgs
  | noScheme =>
    rw [haux] at hgs
    injection hgs with hgs
    obtain ⟨h1, h2⟩ := Prod.mk.injEq .. ▸ hgs
    exact Or.inl ⟨h1.symm, h2.symm⟩
  | found s r =>
    rw [haux] at hgs
    injection hgs with hgs
    obtain ⟨h1, h2⟩ := Prod.mk.injEq .. ▸ hgs
    subst h1
    subst h2
    obtain ⟨he, hall, hfirst⟩ := getSchemeAux_found A true s r haux
    obtain ⟨c, cs, hsch, hletter⟩ := hfirst rfl
    refine Or.inr ⟨he, c, cs, hsch, hletter, fun d hd => hall d ?_⟩
    rw [hsch]
    exact List.mem_cons_of_mem c hd

/-- Serialisation of an authority-carrying record with no query and no
fragment. -/
theorem urlString_authority (u : GoURL) (hop : u.opaquePart = [])
    (hh : u.host ≠ []) (hq : u.rawQuery = []) (hf : u.fragment = [])
    (hpath : u.path = [] ∨ u.path.head? = some '/') :
    urlString u = (if u.scheme = [] then [] else u.scheme ++ [':']) ++
      '/' :: '/' :: (u.host ++ u.path) := by
  unfold urlString
  rw [hop, hq, hf]
  have hsep : ¬ (u.path ≠ [] ∧ u.path.head? ≠ some '/' ∧ u.host ≠ []) := by
    rcases hpath with hnil | hhead
    · rintro ⟨h1, -, -⟩
      exact h1 hnil
    · rintro ⟨-, h2, -⟩
      exact h2 hhead
  rw [if_neg (by simp : ¬ (([] : List Char) ≠ [])), if_pos (Or.inr hh), if_neg hsep,
      if_pos rfl, if_pos rfl]
  simp

/-- Parsing a serialised authority form recovers its components: a
well-formed (possibly absent) scheme, a non-empty delimiter-free host
and a path that is empty or slash-headed parse back exactly. -/
theorem urlParse_authority_form (scheme host path : List Char)
    (hscheme : scheme = [] ∨
      ∃ c cs, scheme = c :: cs ∧ isSchemeLetter c ∧ ∀ d ∈ cs, isSchemeChar d)
    (hh : host ≠ []) (hhostc : ∀ c ∈ host, c ≠ '/' ∧ c ≠ '?' ∧ c ≠ '#')
    (hpath : path = [] ∨ path.head? = some '/')
    (hpathc : ∀ c ∈ path, c ≠ '?' ∧ c ≠ '#') :
    urlParse ((if scheme = [] then [] else scheme ++ [':']) ++
        '/' :: '/' :: (host ++ path))
      = some ⟨scheme, [], host, path, [], []⟩ := by
  have hRq : ∀ c ∈ ('/' :: '/' :: (host ++ path)), c ≠ '?' := by
    intro c hc
    rcases List.mem_cons.1 hc with rfl | hc
    · decide
    rcases List.mem_cons.1 hc with rfl | hc
    · decide
    rcases List.mem_append.1 hc with hc | hc
    · exact (hhostc c hc).2.1
    · exact (hpathc c hc).1
  have hRh : ∀ c ∈ ('/' :: '/' :: (host ++ path)), c ≠ '#' := by
    intro c hc
    rcases List.mem_cons.1 hc with rfl | hc
    · decide
    rcases List.mem_cons.1 hc with rfl | hc
    · decide
    rcases List.mem_append.1 hc with hc | hc
    · exact (hhostc c hc).2.2
    · exact (hpathc c hc).2
  have hsplitQ : splitFirst '?' ('/' :: '/' :: (host ++ path)) true
      = ('/' :: '/' :: (host ++ path), []) :=
    splitFirst_of_not_mem '?' _ true hRq
  have hauth : splitFirst '/' (host ++ path) false = (host, path) := by
    rcases hpath with rfl | hhead
    · rw [List.append_nil]
      exact splitFirst_of_not_mem '/' host false (fun c hc => (hhostc c hc).1)
    · obtain ⟨pt, rfl⟩ : ∃ pt, path = '/' :: pt := by
        cases path with
        | nil => cases hhead
        | cons a l =>
          injection hhead with hhead
          exact ⟨l, by rw [hhead]⟩
      exact splitFirst_append_sep '/' host pt false (fun c hc => (hhostc c hc).1)
  have hdrop : ('/' :: '/' :: (host ++ path)).drop 2 = host ++ path := rfl
  have hslash1 : "/".data <+: ('/' :: '/' :: (host ++ path)) :=
    ⟨'/' :: (host ++ path), rfl⟩
  have hslash2 : "//".data <+: ('/' :: '/' :: (host ++ path)) :=
    ⟨host ++ path, rfl⟩
  have hslash3 : ¬ ("///".data <+: ('/' :: '/' :: (host ++ path))) := by
    rintro ⟨t, ht⟩
    have ht' : '/' :: t = host ++ path := by
      have h2 : ('/' : Char) :: '/' :: '/' :: t = '/' :: '/' :: (host ++ path) := ht
      simp only [List.cons.injEq] at h2
      exact h2.2.2
    cases host with
    | nil => exact hh rfl
    | cons hc ht2 =>
      rw [List.cons_append] at ht'
      injection ht' with h1 _
      exact (hhostc hc (List.mem_cons_self _ _)).1 h1.symm
  rcases hscheme with rfl | ⟨c, cs, rfl, hletter, hcs⟩
  · rw [if_pos rfl, List.nil_append]
    have hsplitH : splitFirst '#' ('/' :: '/' :: (host ++ path)) true
        = ('/' :: '/' :: (host ++ path), []) :=
      splitFirst_of_not_mem '#' _ true hRh
    simp only [urlParse, hsplitH, getScheme_slash, hsplitQ, hdrop, hauth]
    rw [if_neg (fun h => h.2 rfl), if_pos ⟨Or.inr hslash3, hslash2⟩]
  · rw [if_neg (List.cons_ne_nil c cs)]
    have hform : ((c :: cs) ++ [':']) ++ '/' :: '/' :: (host ++ path)
        = (c :: cs) ++ ':' :: ('/' :: '/' :: (host ++ path)) := by
      simp
    rw [hform]
    have hsplitH : splitFirst '#'
        ((c :: cs) ++ ':' :: ('/' :: '/' :: (host ++ path))) true
        = ((c :: cs) ++ ':' :: ('/' :: '/' :: (host ++ path)), []) := by
      apply splitFirst_of_not_mem
      intro d hd
      rcases List.mem_append.1 hd with hd | hd
      · exact (scheme_chars_ne (c :: cs) (Or.inr ⟨c, cs, rfl, hletter, hcs⟩) d hd).1
      rcases List.mem_cons.1 hd with rfl | hd
      · decide
      · exact hRh d hd
    simp only [urlParse, hsplitH, getScheme_scheme c cs _ hletter hcs, hsplitQ,
      hdrop, hauth]
    rw [if_neg (fun h => h.1 hslash1), if_pos ⟨Or.inl (List.cons_ne_nil c cs), hslash2⟩]

/-- Invariants of a parse that produced a non-empty host: the record
came from the authority branch, so the opaque part is empty, the host
avoids every delimiter, the path is empty or slash-headed and avoids
query/fragment delimiters, and the scheme is empty or well-formed. -/
theorem urlParse_host_invariants (raw : List Char) (u : GoURL)
    (hp : urlParse raw = some u) (hh : u.host ≠ []) :
    u.opaquePart = [] ∧
    (∀ c ∈ u.host, c ≠ '/' ∧ c ≠ '?' ∧ c ≠ '#') ∧
    (u.path = [] ∨ u.path.head? = some '/') ∧
    (∀ c ∈ u.path, c ≠ '?' ∧ c ≠ '#') ∧
    (u.scheme = [] ∨
      ∃ c cs, u.scheme = c :: cs ∧ isSchemeLetter c ∧ ∀ d ∈ cs, isSchemeChar d) := by
  have hfst : (splitFirst '#' raw true).1 = raw.takeWhile (fun c => c != '#') := rfl
  simp only [urlParse] at hp
  rcases hgs : getScheme ((splitFirst '#' raw true).1) with _ | ⟨scheme, rest0⟩
  · rw [hgs] at hp
    cases hp
  · simp only [hgs] at hp
    have hspec := getScheme_some_spec _ scheme rest0 hgs
    have hrest0h : ∀ c ∈ rest0, c ≠ '#' := by
      intro c hc
      have hcA : c ∈ (splitFirst '#' raw true).1 := by
        rcases hspec with ⟨-, h0⟩ | ⟨hA, -⟩
        · rw [h0] at hc
          exact hc
        · rw [hA]
          exact List.mem_append_right _ (List.mem_cons_of_mem _ hc)
      rw [hfst] at hcA
      have hb := List.mem_takeWhile_imp hcA
      simpa using hb
    have hrest1q : ∀ c ∈ (splitFirst '?' rest0 true).1, c ≠ '?' := by
      intro c hc
      have hb := List.mem_takeWhile_imp (p := fun c => c != '?') hc
      simpa using hb
    have hrest1h : ∀ c ∈ (splitFirst '?' rest0 true).1, c ≠ '#' := by
      intro c hc
      exact hrest0h c ((List.takeWhile_sublist _).subset hc)
    have hXq : ∀ c ∈ ((splitFirst '?' rest0 true).1.drop 2), c ≠ '?' :=
      fun c hc => hrest1q c ((List.drop_sublist _ _).subset hc)
    have hXh : ∀ c ∈ ((splitFirst '?' rest0 true).1.drop 2), c ≠ '#' :=
      fun c hc => hrest1h c ((List.drop_sublist _ _).subset hc)
    have hschemeWf : scheme = [] ∨
        ∃ c cs, scheme = c :: cs ∧ isSchemeLetter c ∧ ∀ d ∈ cs, isSchemeChar d := by
      rcases hspec with ⟨h0, -⟩ | ⟨-, hwf⟩
      · exact Or.inl h0
      · exact Or.inr hwf
    split_ifs at hp with h1 h2
    · injection hp with hp
      rw [← hp] at hh
      exact absurd rfl hh
    · injection hp with hp
      subst hp
      refine ⟨rfl, ?_, ?_, ?_, hschemeWf⟩
      · intro c hc
        have hc' : c ∈ ((splitFirst '?' rest0 true).1.drop 2).takeWhile
            (fun c => c != '/') := hc
        have hb := List.mem_takeWhile_imp hc'
        refine ⟨by simpa using hb, ?_, ?_⟩
        · exact hXq c ((List.takeWhile_sublist _).subset hc')
        · exact hXh c ((List.takeWhile_sublist _).subset hc')
      · have hhead := List.head?_dropWhile_not (fun c => c != '/')
          ((splitFirst '?' rest0 true).1.drop 2)
        rcases hX : (((splitFirst '?' rest0 true).1.drop 2).dropWhile
            (fun c => c != '/')).head? with _ | x
        · left
          exact List.head?_eq_none_iff.1 hX
        · right
          rw [hX] at hhead
          have hx : x = '/' := by simpa using hhead
          show (((splitFirst '?' rest0 true).1.drop 2).dropWhile
            (fun c => c != '/')).head? = some '/'
          rw [hX, hx]
      · intro c hc
        have hc' : c ∈ ((splitFirst '?' rest0 true).1.drop 2).dropWhile
            (fun c => c != '/') := hc
        refine ⟨?_, ?_⟩
        · exact hXq c ((List.dropWhile_sublist _).subset hc')
        · exact hXh c ((List.dropWhile_sublist _).subset hc')
    · injection hp with hp
      rw [← hp] at hh
      exact absurd rfl hh

/-- `trimSuffix` yields a sublist. -/
theorem trimSuffix_sublist (l suf : List Char) : List.Sublist (trimSuffix l suf) l := by
  unfold trimSuffix
  split
  · exact List.take_sublist _ _
  · exact List.Sublist.refl l

/-- Unpacking a successful resolution of an input whose parse carries
an `api.`-prefixed host: the parsed record had no query and no
fragment, passed through unchanged, and the result is its
serialisation with one trailing slash stripped. -/
theorem getCloudAPI_some_spec (raw : List Char) (rec : GoURL) (s : List Char)
    (hp : urlParse raw = some rec) (hapi : "api.".data <+: rec.host)
    (hres : getCloudAPI raw = some s) :
    rec.rawQuery = [] ∧ rec.fragment = [] ∧ getCloudAPIURL raw = some rec ∧
      s = trimSuffix (urlString rec) ['/'] := by
  unfold getCloudAPI at hres
  rcases hcu : getCloudAPIURL raw with _ | v
  · rw [hcu] at hres
    cases hres
  · rw [hcu] at hres
    have hs : s = trimSuffix (urlString v) ['/'] := by
      simpa using hres.symm
    have hcu0 := hcu
    unfold getCloudAPIURL at hcu0
    by_cases h0 : raw = []
    · rw [if_pos h0] at hcu0
      cases hcu0
    · rw [if_neg h0] at hcu0
      simp only [hp] at hcu0
      by_cases hqf : rec.rawQuery ≠ [] ∨ rec.fragment ≠ []
      · rw [if_pos hqf] at hcu0
        cases hcu0
      · rw [if_neg hqf, if_pos hapi] at hcu0
        injection hcu0 with hcu0
        subst hcu0
        push_neg at hqf
        exact ⟨hqf.1, hqf.2, rfl, hs⟩

/-- C5 (amended): for a base URL whose parse carries a host already
starting with `api.` and whose resolution does not end with a slash,
resolution is idempotent: resolving the output returns it unchanged.
(The original claim, refuted by `c5_counterexample`, omitted the
trailing-slash side condition; an output keeping a slash — possible
since only one is stripped — loses it on the second resolution.) -/
theorem c5_amended_idempotent (v : List Char) (rec : GoURL) (s : List Char)
    (hp : urlParse v = some rec) (hapi : "api.".data <+: rec.host)
    (hres : getCloudAPI v = some s) (hslash : s.getLast? ≠ some '/') :
    getCloudAPI s = some s := by
  obtain ⟨hq, hf, hcu, hs⟩ := getCloudAPI_some_spec v rec s hp hapi hres
  have hh : rec.host ≠ [] := by
    rcases hapi with ⟨t, ht⟩
    intro h0
    rw [h0] at ht
    cases ht
  obtain ⟨hop, hhostc, hpathHead, hpathc, hschemeWf⟩ :=
    urlParse_host_invariants v rec hp hh
  have hser : urlString rec =
      ((if rec.scheme = [] then [] else rec.scheme ++ [':']) ++
        '/' :: '/' :: rec.host) ++ rec.path := by
    rw [urlString_authority rec hop hh hq hf hpathHead]
    simp
  have hAlast : (((if rec.scheme = [] then [] else rec.scheme ++ [':']) ++
      '/' :: '/' :: rec.host)).getLast? ≠ some '/' := by
    rcases List.eq_nil_or_concat rec.host with h | ⟨t, x, hht⟩
    · exact absurd h hh
    · have hx : x ∈ rec.host := by
        rw [hht]
        simp [List.concat_eq_append]
      have hAeq : ((if rec.scheme = [] then [] else rec.scheme ++ [':']) ++
          '/' :: '/' :: rec.host)
          = (((if rec.scheme = [] then [] else rec.scheme ++ [':']) ++
              '/' :: '/' :: t) ++ [x]) := by
        rw [hht]
        simp [List.concat_eq_append]
      rw [hAeq, List.getLast?_concat]
      intro hcon
      injection hcon with hcon
      exact (hhostc x hx).1 hcon
  have hs2 : s = ((if rec.scheme = [] then [] else rec.scheme ++ [':']) ++
      '/' :: '/' :: rec.host) ++ trimSuffix rec.path ['/'] := by
    rw [hs, hser, trimSuffix_slash_append _ _ hAlast]
  have hp2head : trimSuffix rec.path ['/'] = [] ∨
      (trimSuffix rec.path ['/']).head? = some '/' := by
    rcases hpathHead with hnil | hhead
    · left
      rw [hnil]
      decide
    · obtain ⟨pt, hpt⟩ : ∃ pt, rec.path = '/' :: pt := by
        cases hx : rec.path with
        | nil => rw [hx] at hhead; cases hhead
        | cons a l =>
          rw [hx] at hhead
          injection hhead with hhead
          exact ⟨l, by rw [hhead]⟩
      rw [trimSuffix_slash]
      split
      · rw [hpt]
        cases pt with
        | nil => left; rfl
        | cons q qs =>
          right
          rw [List.dropLast_cons₂]
          rfl
      · right
        rw [hpt]
        rfl
  have hp2chars : ∀ c ∈ trimSuffix rec.path ['/'], c ≠ '?' ∧ c ≠ '#' :=
    fun c hc => hpathc c ((trimSuffix_sublist _ _).subset hc)
  have hs3 : s = (if rec.scheme = [] then [] else rec.scheme ++ [':']) ++
      '/' :: '/' :: (rec.host ++ trimSuffix rec.path ['/']) := by
    rw [hs2]
    simp
  have hps : urlParse s = some ⟨rec.scheme, [], rec.host, trimSuffix rec.path ['/'],
      [], []⟩ := by
    rw [hs3]
    exact urlParse_authority_form rec.scheme rec.host (trimSuffix rec.path ['/'])
      hschemeWf hh hhostc hp2head hp2chars
  have hsne : s ≠ [] := by
    intro h0
    rw [h0] at hs3
    rcases List.append_eq_nil.1 hs3.symm with ⟨-, h2⟩
    cases h2
  unfold getCloudAPI getCloudAPIURL
  rw [if_neg hsne]
  simp only [hps]
  rw [if_neg (by simp : ¬ (([] : List Char) ≠ [] ∨ ([] : List Char) ≠ []))]
  rw [if_pos (by exact hapi : "api.".data <+:
    (GoURL.mk rec.scheme [] rec.host (trimSuffix rec.path ['/']) [] []).host)]
  have hser2 : urlString ⟨rec.scheme, [], rec.host, trimSuffix rec.path ['/'], [], []⟩
      = s := by
    rw [urlString_authority ⟨rec.scheme, [], rec.host, trimSuffix rec.path ['/'], [], []⟩
      rfl hh rfl rfl hp2head]
    exact hs3.symm
  simp only [Option.map_some']
  rw [hser2, trimSuffix_slash, if_neg hslash]

/-- C5 (amended) witness: `https://api.example.com/x` is already in
resolved form, parses with an `api.`-prefixed host, resolves to
itself, and resolving again is the identity. -/
theorem c5_amended_idempotent_witness :
    getCloudAPI "https://api.example.com/x".data
      = some "https://api.example.com/x".data ∧
    ("https://api.example.com/x".data).getLast? ≠ some '/' :=
  ⟨c5_amended_idempotent "https://api.example.com/x".data
      ⟨"https".data, [], "api.example.com".data, "/x".data, [], []⟩
      "https://api.example.com/x".data (by decide) (by decide) (by decide)
      (by decide),
   by decide⟩
